import Mathlib

/-!
Shallow embedding of the SkalaEngineNumerics crate.

The crate's scalar type is `SignedFractional = fixed::types::I32F32`: a signed
64-bit fixed-point number with 32 fractional bits.  A scalar is represented here
by its raw two's-complement representation `r : Int` with the range invariant
`-2^63 <= r < 2^63`; the numeric value is `r / 2^32`.

Semantics of the scalar operations (the `fixed` crate, as configured for
I32F32, and the `fixed_sqrt` crate):
* `+`, `-`, unary `-`, `*`, `/` compute the exact fixed-point result;
  on overflow they panic (checked semantics, as the repository's own
  documentation demands: overflow is "signaled by a panic/fault rather than
  silent wraparound"); division by zero always panics.
* multiplication computes the full product and arithmetically shifts it right
  by 32 bits, i.e. it floors (`Int.fdiv`); division widens the dividend by 32
  bits and divides truncating toward zero (`Int.tdiv`), as Rust's integer
  division does.
* `fixed_sqrt`'s `sqrt` for a type with an even number of fractional bits
  returns the floor integer square root of `raw * 2^32`; it faults on a
  negative input.

A panic is modelled as `none`; every fallible operation returns `Option`.
-/

/-- Scale factor of the I32F32 fixed-point representation: a raw value `r`
denotes the number `r / Fix.scale`. -/
def Fix.scale : Int := 2 ^ 32

/-- Range of the 64-bit two's-complement raw representation backing I32F32. -/
def Fix.inRange (r : Int) : Prop := -(2 ^ 63) ≤ r ∧ r < 2 ^ 63

instance (r : Int) : Decidable (Fix.inRange r) :=
  inferInstanceAs (Decidable (And _ _))

/-- Overflow check shared by all scalar operations: an out-of-range result is a
panic (`none`). -/
def Fix.chk (r : Int) : Option Int := if Fix.inRange r then some r else none

/-- Checked fixed-point addition (raw representations). -/
def Fix.add (a b : Int) : Option Int := Fix.chk (a + b)

/-- Checked fixed-point subtraction (raw representations). -/
def Fix.sub (a b : Int) : Option Int := Fix.chk (a - b)

/-- Checked fixed-point negation (raw representation); faults only on the
minimum raw value `-2^63`. -/
def Fix.neg (a : Int) : Option Int := Fix.chk (-a)

/-- Checked fixed-point multiplication: full product arithmetically shifted
right by 32 bits (floor), then range-checked. -/
def Fix.mul (a b : Int) : Option Int := Fix.chk (Int.fdiv (a * b) Fix.scale)

/-- Checked fixed-point division: dividend widened by 32 bits, quotient
truncated toward zero, then range-checked; division by zero panics. -/
def Fix.div (a b : Int) : Option Int :=
  if b = 0 then none else Fix.chk (Int.tdiv (a * Fix.scale) b)

/-- Fixed-point square root (`fixed_sqrt` crate, even number of fractional
bits): floor square root of `raw * 2^32`; faults on negative input.  The result
always fits in range, so no overflow check is needed. -/
def Fix.sqrt (a : Int) : Option Int :=
  if a < 0 then none else some (Int.sqrt (a * Fix.scale))

/-- Raw representation of an integer-valued scalar. -/
def Fix.ofInt (n : Int) : Int := n * Fix.scale

/-- The crate's `Vec2`: two I32F32 scalars, stored as raw representations. -/
structure Vec2 where
  x : Int
  y : Int
deriving DecidableEq

/-- Vec2::ZERO, both coordinates zero. -/
def Vec2.ZERO : Vec2 := ⟨0, 0⟩

/-- Vec2::len_pow2: `self.x * self.x + self.y * self.y`. -/
def Vec2.len_pow2 (v : Vec2) : Option Int := do
  let a ← Fix.mul v.x v.x
  let b ← Fix.mul v.y v.y
  Fix.add a b

/-- Vec2::len: `self.len_pow2().sqrt()`. -/
def Vec2.len (v : Vec2) : Option Int := do
  let s ← Vec2.len_pow2 v
  Fix.sqrt s

/-- Vec2::get_normalized: `let len = self.len();` then each component divided
by `len`. -/
def Vec2.get_normalized (v : Vec2) : Option Vec2 := do
  let len ← Vec2.len v
  let nx ← Fix.div v.x len
  let ny ← Fix.div v.y len
  pure ⟨nx, ny⟩

/-- Vec2::normalize: `*self /= self.len()`, i.e. compute the length once and
divide both components by it in place. -/
def Vec2.normalize (v : Vec2) : Option Vec2 := do
  let len ← Vec2.len v
  let nx ← Fix.div v.x len
  let ny ← Fix.div v.y len
  pure ⟨nx, ny⟩

/-- Vec2::try_get_normalized: returns `None` (inner) when the computed length
is exactly zero, otherwise the divided components; the outer `Option` is the
panic monad. -/
def Vec2.try_get_normalized (v : Vec2) : Option (Option Vec2) := do
  let len ← Vec2.len v
  if len = 0 then
    pure none
  else
    let nx ← Fix.div v.x len
    let ny ← Fix.div v.y len
    pure (some ⟨nx, ny⟩)

/-- From<(SignedFractional, SignedFractional)> for Vec2. -/
def Vec2.fromTuple (n : Int × Int) : Vec2 := ⟨n.1, n.2⟩

/-- From<Vec2> for (SignedFractional, SignedFractional). -/
def Vec2.toTuple (n : Vec2) : Int × Int := (n.x, n.y)

/-- Neg for Vec2, componentwise checked negation. -/
def Vec2.neg (v : Vec2) : Option Vec2 := do
  let nx ← Fix.neg v.x
  let ny ← Fix.neg v.y
  pure ⟨nx, ny⟩

/-- Add for Vec2, componentwise checked addition. -/
def Vec2.add (v rhs : Vec2) : Option Vec2 := do
  let nx ← Fix.add v.x rhs.x
  let ny ← Fix.add v.y rhs.y
  pure ⟨nx, ny⟩

/-- Sub for Vec2, componentwise checked subtraction. -/
def Vec2.sub (v rhs : Vec2) : Option Vec2 := do
  let nx ← Fix.sub v.x rhs.x
  let ny ← Fix.sub v.y rhs.y
  pure ⟨nx, ny⟩

/-- Mul<SignedFractional> for Vec2: both components multiplied by the scalar. -/
def Vec2.mul (v : Vec2) (rhs : Int) : Option Vec2 := do
  let nx ← Fix.mul v.x rhs
  let ny ← Fix.mul v.y rhs
  pure ⟨nx, ny⟩

/-- Div<SignedFractional> for Vec2: both components divided by the scalar. -/
def Vec2.div (v : Vec2) (rhs : Int) : Option Vec2 := do
  let nx ← Fix.div v.x rhs
  let ny ← Fix.div v.y rhs
  pure ⟨nx, ny⟩

/-- The crate's `Vec3`: three I32F32 scalars, stored as raw representations. -/
structure Vec3 where
  x : Int
  y : Int
  z : Int
deriving DecidableEq

/-- Vec3::ZERO, all coordinates zero. -/
def Vec3.ZERO : Vec3 := ⟨0, 0, 0⟩

/-- Vec3::magintude_pow2 (the source file's spelling):
`self.x * self.x + self.y * self.y + self.z * self.z`. -/
def Vec3.magintude_pow2 (v : Vec3) : Option Int := do
  let a ← Fix.mul v.x v.x
  let b ← Fix.mul v.y v.y
  let ab ← Fix.add a b
  let c ← Fix.mul v.z v.z
  Fix.add ab c

/-- Vec3::magnitude: `self.magintude_pow2().sqrt()`. -/
def Vec3.magnitude (v : Vec3) : Option Int := do
  let s ← Vec3.magintude_pow2 v
  Fix.sqrt s

/-- Vec3::get_normalized: compute the magnitude once, divide each component. -/
def Vec3.get_normalized (v : Vec3) : Option Vec3 := do
  let len ← Vec3.magnitude v
  let nx ← Fix.div v.x len
  let ny ← Fix.div v.y len
  let nz ← Fix.div v.z len
  pure ⟨nx, ny, nz⟩

/-- Vec3::normalize: `*self /= self.magnitude()`. -/
def Vec3.normalize (v : Vec3) : Option Vec3 := do
  let len ← Vec3.magnitude v
  let nx ← Fix.div v.x len
  let ny ← Fix.div v.y len
  let nz ← Fix.div v.z len
  pure ⟨nx, ny, nz⟩

/-- Vec3::try_get_normalized: `None` (inner) exactly when the computed
magnitude is zero. -/
def Vec3.try_get_normalized (v : Vec3) : Option (Option Vec3) := do
  let len ← Vec3.magnitude v
  if len = 0 then
    pure none
  else
    let nx ← Fix.div v.x len
    let ny ← Fix.div v.y len
    let nz ← Fix.div v.z len
    pure (some ⟨nx, ny, nz⟩)

/-- From<(SignedFractional, SignedFractional, SignedFractional)> for Vec3. -/
def Vec3.fromTuple (n : Int × Int × Int) : Vec3 := ⟨n.1, n.2.1, n.2.2⟩

/-- From<Vec3> for (SignedFractional, SignedFractional, SignedFractional). -/
def Vec3.toTuple (n : Vec3) : Int × Int × Int := (n.x, n.y, n.z)

/-- Neg for Vec3. -/
def Vec3.neg (v : Vec3) : Option Vec3 := do
  let nx ← Fix.neg v.x
  let ny ← Fix.neg v.y
  let nz ← Fix.neg v.z
  pure ⟨nx, ny, nz⟩

/-- Add for Vec3. -/
def Vec3.add (v rhs : Vec3) : Option Vec3 := do
  let nx ← Fix.add v.x rhs.x
  let ny ← Fix.add v.y rhs.y
  let nz ← Fix.add v.z rhs.z
  pure ⟨nx, ny, nz⟩

/-- Sub for Vec3. -/
def Vec3.sub (v rhs : Vec3) : Option Vec3 := do
  let nx ← Fix.sub v.x rhs.x
  let ny ← Fix.sub v.y rhs.y
  let nz ← Fix.sub v.z rhs.z
  pure ⟨nx, ny, nz⟩

/-- Mul<SignedFractional> for Vec3. -/
def Vec3.mul (v : Vec3) (rhs : Int) : Option Vec3 := do
  let nx ← Fix.mul v.x rhs
  let ny ← Fix.mul v.y rhs
  let nz ← Fix.mul v.z rhs
  pure ⟨nx, ny, nz⟩

/-- Div<SignedFractional> for Vec3. -/
def Vec3.div (v : Vec3) (rhs : Int) : Option Vec3 := do
  let nx ← Fix.div v.x rhs
  let ny ← Fix.div v.y rhs
  let nz ← Fix.div v.z rhs
  pure ⟨nx, ny, nz⟩

/-!
Helper lemmas about the scalar operations.
-/

theorem Fix.chk_some (r m : Int) (h : Fix.chk r = some m) :
    m = r ∧ -(2 ^ 63) ≤ r ∧ r < 2 ^ 63 := by
  by_cases hin : Fix.inRange r
  · rw [Fix.chk, if_pos hin] at h
    exact ⟨(Option.some.inj h).symm, hin.1, hin.2⟩
  · rw [Fix.chk, if_neg hin] at h
    exact absurd h (by simp)

theorem Fix.mul_self_some (x m : Int) (h : Fix.mul x x = some m) :
    m = Int.fdiv (x * x) Fix.scale ∧ 0 ≤ m ∧ m < 2 ^ 63 := by
  obtain ⟨hm, _, hub⟩ := Fix.chk_some _ _ h
  refine ⟨hm, ?_, hm ▸ hub⟩
  rw [hm]
  exact Int.fdiv_nonneg (mul_self_nonneg x) (by norm_num [Fix.scale])

theorem Fix.add_some (a b m : Int) (h : Fix.add a b = some m) :
    m = a + b ∧ -(2 ^ 63) ≤ m ∧ m < 2 ^ 63 := by
  obtain ⟨hm, hlb, hub⟩ := Fix.chk_some _ _ h
  exact ⟨hm, hm ▸ hlb, hm ▸ hub⟩

theorem Fix.sqrt_some_facts (s l : Int) (hs0 : 0 ≤ s) (h : Fix.sqrt s = some l) :
    0 ≤ l ∧ l * l ≤ s * Fix.scale ∧ s * Fix.scale < (l + 1) * (l + 1) := by
  rw [Fix.sqrt, if_neg (not_lt.mpr hs0)] at h
  have hl : l = Int.sqrt (s * Fix.scale) := (Option.some.inj h).symm
  have hS : (0 : Int) ≤ s * Fix.scale := mul_nonneg hs0 (by norm_num [Fix.scale])
  have hcast : ((s * Fix.scale).toNat : Int) = s * Fix.scale := Int.toNat_of_nonneg hS
  refine ⟨hl ▸ Int.sqrt_nonneg _, ?_, ?_⟩
  · have hle := Nat.sqrt_le ((s * Fix.scale).toNat)
    rw [hl, Int.sqrt]
    calc ((Nat.sqrt (s * Fix.scale).toNat : Int)) * ((Nat.sqrt (s * Fix.scale).toNat : Int))
        = ((Nat.sqrt (s * Fix.scale).toNat * Nat.sqrt (s * Fix.scale).toNat : ℕ) : Int) := by
          push_cast; ring
      _ ≤ ((s * Fix.scale).toNat : Int) := by exact_mod_cast hle
      _ = s * Fix.scale := hcast
  · have hlt := Nat.lt_succ_sqrt ((s * Fix.scale).toNat)
    rw [hl, Int.sqrt]
    calc s * Fix.scale = ((s * Fix.scale).toNat : Int) := hcast.symm
      _ < (((Nat.sqrt (s * Fix.scale).toNat + 1) * (Nat.sqrt (s * Fix.scale).toNat + 1) : ℕ) : Int) := by
          exact_mod_cast hlt
      _ = ((Nat.sqrt (s * Fix.scale).toNat : Int) + 1) * ((Nat.sqrt (s * Fix.scale).toNat : Int) + 1) := by
          push_cast; ring

/-- Core bound: if a raw component `A = |x|` satisfies the approximate
Pythagorean relation `A * A < (L + 1) * (L + 1) + 2^32` against a nonzero
computed length `L`, then dividing the widened component by `L` cannot
overflow the 64-bit raw range. -/
theorem Fix.quot_bound (A L : Int) (hA : 0 ≤ A) (hL : 2 ^ 16 ≤ L)
    (h : A * A < (L + 1) * (L + 1) + 2 ^ 32) : A * 2 ^ 32 < 2 ^ 63 * L := by
  rcases lt_or_le A (2 ^ 32) with hsm | hbig
  · have h1 : A * 2 ^ 32 < 2 ^ 32 * 2 ^ 32 :=
      mul_lt_mul_of_pos_right hsm (by norm_num)
    have h2 : 2 ^ 63 * 2 ^ 16 ≤ 2 ^ 63 * L :=
      mul_le_mul_of_nonneg_left hL (by norm_num)
    linarith
  · rcases le_or_lt L (2 ^ 31) with hLsm | hLbig
    · exfalso
      have h1 : (2 : Int) ^ 32 * 2 ^ 32 ≤ A * A :=
        mul_le_mul hbig hbig (by norm_num) (le_trans (by norm_num) hbig)
      have h2 : L + 1 ≤ 2 ^ 31 + 1 := by linarith
      have h3 : (L + 1) * (L + 1) ≤ (2 ^ 31 + 1) * (2 ^ 31 + 1) :=
        mul_le_mul h2 h2 (by linarith) (by norm_num)
      linarith
    · have hAL : A ≤ L + 1 := by
        by_contra hc
        push_neg at hc
        have hc2 : L + 2 ≤ A := by linarith
        have h1 : (L + 2) * (L + 2) ≤ A * A :=
          mul_le_mul hc2 hc2 (by linarith) hA
        nlinarith
      have h1 : A * 2 ^ 32 ≤ (L + 1) * 2 ^ 32 :=
        mul_le_mul_of_nonneg_right hAL (by norm_num)
      nlinarith

/-- If a component `x` contributed its truncated square to the squared length
`s`, the length `l = sqrt s` is nonzero, and `s` is in range, then the division
`x / l` performed by the normalization routines succeeds and returns the
truncated widened quotient. -/
theorem Fix.div_by_sqrt_len (x s l : Int)
    (hsx : Int.fdiv (x * x) Fix.scale ≤ s)
    (hs0 : 0 ≤ s) (hslt : s < 2 ^ 63)
    (hsq : Fix.sqrt s = some l) (hl0 : l ≠ 0) :
    Fix.div x l = some (Int.tdiv (x * Fix.scale) l) := by
  obtain ⟨hl0le, hlow, hup⟩ := Fix.sqrt_some_facts s l hs0 hsq
  rw [Fix.scale] at hlow hup
  have hl1 : 1 ≤ l := by omega
  have hs1 : 1 ≤ s := by nlinarith
  have hl16 : 2 ^ 16 ≤ l := by
    by_contra hc
    push_neg at hc
    have h1 : l + 1 ≤ 2 ^ 16 := by omega
    have h2 : (l + 1) * (l + 1) ≤ 2 ^ 16 * 2 ^ 16 :=
      mul_le_mul h1 h1 (by omega) (by norm_num)
    nlinarith
  have hAA : (x.natAbs : Int) * (x.natAbs : Int) = x * x := Int.natAbs_mul_self' x
  have hfd : x * x < (Int.fdiv (x * x) Fix.scale + 1) * Fix.scale :=
    Int.lt_fdiv_add_one_mul_self _ (by norm_num [Fix.scale])
  have h2 : x * x < (s + 1) * (2 ^ 32 : Int) := by
    rw [Fix.scale] at hfd hsx
    linarith
  have h3 : (x.natAbs : Int) * (x.natAbs : Int) < (l + 1) * (l + 1) + 2 ^ 32 := by
    rw [hAA]
    nlinarith
  have hbound : (x.natAbs : Int) * 2 ^ 32 < 2 ^ 63 * l :=
    Fix.quot_bound _ _ (by positivity) hl16 h3
  have hq : (Int.tdiv (x * Fix.scale) l).natAbs = x.natAbs * 2 ^ 32 / l.natAbs := by
    rw [Int.natAbs_tdiv, Int.natAbs_mul]
    norm_num [Fix.scale]
    rfl
  have hlpos : 0 < l.natAbs := by omega
  have hNat : x.natAbs * 2 ^ 32 < 2 ^ 63 * l.natAbs := by
    have hcl : (l.natAbs : Int) = l := by omega
    have h5 : (x.natAbs : Int) * 2 ^ 32 < 2 ^ 63 * (l.natAbs : Int) := by
      rw [hcl]
      exact hbound
    exact_mod_cast h5
  have hqlt : (Int.tdiv (x * Fix.scale) l).natAbs < 2 ^ 63 := by
    rw [hq]
    exact (Nat.div_lt_iff_lt_mul hlpos).mpr (by linarith)
  have hin : Fix.inRange (Int.tdiv (x * Fix.scale) l) := by
    rw [Fix.inRange]
    omega
  rw [Fix.div, if_neg hl0, Fix.chk, if_pos hin]

/-- Destructor for a successful Vec2 length computation: it exposes the squared
length, its bounds, and the contribution of each component. -/
theorem Vec2.len_some_elim (v : Vec2) (l : Int) (h : Vec2.len v = some l) :
    ∃ s, Vec2.len_pow2 v = some s ∧ 0 ≤ s ∧ s < 2 ^ 63 ∧
      Int.fdiv (v.x * v.x) Fix.scale ≤ s ∧ Int.fdiv (v.y * v.y) Fix.scale ≤ s ∧
      Fix.sqrt s = some l := by
  simp only [Vec2.len] at h
  cases hp : Vec2.len_pow2 v with
  | none => rw [hp] at h; simp at h
  | some s =>
    rw [hp] at h
    simp only [Option.bind_eq_bind, Option.some_bind] at h
    refine ⟨s, rfl, ?_, ?_, ?_, ?_, h⟩ <;>
    · simp only [Vec2.len_pow2] at hp
      cases hx : Fix.mul v.x v.x with
      | none => rw [hx] at hp; simp at hp
      | some sx =>
        cases hy : Fix.mul v.y v.y with
        | none => rw [hx, hy] at hp; simp at hp
        | some sy =>
          rw [hx, hy] at hp
          simp only [Option.bind_eq_bind, Option.some_bind] at hp
          obtain ⟨hx1, hx2, hx3⟩ := Fix.mul_self_some _ _ hx
          obtain ⟨hy1, hy2, hy3⟩ := Fix.mul_self_some _ _ hy
          obtain ⟨hs1, hs2, hs3⟩ := Fix.add_some _ _ _ hp
          subst hx1 hy1 hs1
          first
          | positivity
          | linarith

/-- Destructor for a successful Vec3 magnitude computation. -/
theorem Vec3.magnitude_some_elim (v : Vec3) (l : Int) (h : Vec3.magnitude v = some l) :
    ∃ s, Vec3.magintude_pow2 v = some s ∧ 0 ≤ s ∧ s < 2 ^ 63 ∧
      Int.fdiv (v.x * v.x) Fix.scale ≤ s ∧ Int.fdiv (v.y * v.y) Fix.scale ≤ s ∧
      Int.fdiv (v.z * v.z) Fix.scale ≤ s ∧
      Fix.sqrt s = some l := by
  simp only [Vec3.magnitude] at h
  cases hp : Vec3.magintude_pow2 v with
  | none => rw [hp] at h; simp at h
  | some s =>
    rw [hp] at h
    simp only [Option.bind_eq_bind, Option.some_bind] at h
    refine ⟨s, rfl, ?_, ?_, ?_, ?_, ?_, h⟩ <;>
    · simp only [Vec3.magintude_pow2] at hp
      cases hx : Fix.mul v.x v.x with
      | none => rw [hx] at hp; simp at hp
      | some sx =>
        rw [hx] at hp
        simp only [Option.bind_eq_bind, Option.some_bind] at hp
        cases hy : Fix.mul v.y v.y with
        | none => rw [hy] at hp; simp at hp
        | some sy =>
          rw [hy] at hp
          simp only [Option.bind_eq_bind, Option.some_bind] at hp
          cases hab : Fix.add sx sy with
          | none => rw [hab] at hp; simp at hp
          | some sab =>
            rw [hab] at hp
            simp only [Option.bind_eq_bind, Option.some_bind] at hp
            cases hz : Fix.mul v.z v.z with
            | none => rw [hz] at hp; simp at hp
            | some sz =>
              rw [hz] at hp
              simp only [Option.bind_eq_bind, Option.some_bind] at hp
              obtain ⟨hx1, hx2, hx3⟩ := Fix.mul_self_some _ _ hx
              obtain ⟨hy1, hy2, hy3⟩ := Fix.mul_self_some _ _ hy
              obtain ⟨hz1, hz2, hz3⟩ := Fix.mul_self_some _ _ hz
              obtain ⟨hab1, hab2, hab3⟩ := Fix.add_some _ _ _ hab
              obtain ⟨hs1, hs2, hs3⟩ := Fix.add_some _ _ _ hp
              subst hx1 hy1 hz1 hab1 hs1
              first
              | positivity
              | linarith

/-- C1: for every vector (Vec2 or Vec3), try_get_normalized returns None when
the computed length is exactly zero, and otherwise returns Some of the vector
whose components are the original components divided (in fixed-point) by that
length. -/
theorem C1_try_get_normalized_spec :
    (∀ (v : Vec2) (l : Int), Vec2.len v = some l →
      (l = 0 → Vec2.try_get_normalized v = some none) ∧
      (l ≠ 0 → Vec2.try_get_normalized v =
        some (some ⟨Int.tdiv (v.x * Fix.scale) l, Int.tdiv (v.y * Fix.scale) l⟩))) ∧
    (∀ (v : Vec3) (l : Int), Vec3.magnitude v = some l →
      (l = 0 → Vec3.try_get_normalized v = some none) ∧
      (l ≠ 0 → Vec3.try_get_normalized v =
        some (some ⟨Int.tdiv (v.x * Fix.scale) l, Int.tdiv (v.y * Fix.scale) l,
          Int.tdiv (v.z * Fix.scale) l⟩))) := by
  constructor
  · intro v l hlen
    constructor
    · intro h0
      subst h0
      simp [Vec2.try_get_normalized, hlen]
    · intro hne
      obtain ⟨s, _, hs0, hslt, hsx, hsy, hsq⟩ := Vec2.len_some_elim v l hlen
      have hdx := Fix.div_by_sqrt_len v.x s l hsx hs0 hslt hsq hne
      have hdy := Fix.div_by_sqrt_len v.y s l hsy hs0 hslt hsq hne
      simp [Vec2.try_get_normalized, hlen, hne, hdx, hdy]
  · intro v l hlen
    constructor
    · intro h0
      subst h0
      simp [Vec3.try_get_normalized, hlen]
    · intro hne
      obtain ⟨s, _, hs0, hslt, hsx, hsy, hsz, hsq⟩ := Vec3.magnitude_some_elim v l hlen
      have hdx := Fix.div_by_sqrt_len v.x s l hsx hs0 hslt hsq hne
      have hdy := Fix.div_by_sqrt_len v.y s l hsy hs0 hslt hsq hne
      have hdz := Fix.div_by_sqrt_len v.z s l hsz hs0 hslt hsq hne
      simp [Vec3.try_get_normalized, hlen, hne, hdx, hdy, hdz]

/-- Evaluation rule for the fixed-point square root at a perfect square. -/
theorem Fix.sqrt_of_sq (a r : Int) (h0 : ¬ a < 0) (hr : 0 ≤ r)
    (ha : a * Fix.scale = r * r) : Fix.sqrt a = some r := by
  rw [Fix.sqrt, if_neg h0, ha, Int.sqrt_eq, Int.natAbs_of_nonneg hr]

/-- Evaluation rule for Vec2::len when the squared length is a known perfect
square. -/
theorem Vec2.len_eval (v : Vec2) (s r : Int) (hp : Vec2.len_pow2 v = some s)
    (h0 : ¬ s < 0) (hr : 0 ≤ r) (ha : s * Fix.scale = r * r) :
    Vec2.len v = some r := by
  simp only [Vec2.len]
  rw [hp]
  simp only [Option.bind_eq_bind, Option.some_bind]
  exact Fix.sqrt_of_sq s r h0 hr ha

/-- Evaluation rule for Vec3::magnitude when the squared magnitude is a known
perfect square. -/
theorem Vec3.magnitude_eval (v : Vec3) (s r : Int) (hp : Vec3.magintude_pow2 v = some s)
    (h0 : ¬ s < 0) (hr : 0 ≤ r) (ha : s * Fix.scale = r * r) :
    Vec3.magnitude v = some r := by
  simp only [Vec3.magnitude]
  rw [hp]
  simp only [Option.bind_eq_bind, Option.some_bind]
  exact Fix.sqrt_of_sq s r h0 hr ha

/-- Concrete evaluation: the length of (6, 0) is 6. -/
theorem Vec2.len_six_zero : Vec2.len ⟨Fix.ofInt 6, 0⟩ = some (Fix.ofInt 6) :=
  Vec2.len_eval _ (Fix.ofInt 36) (Fix.ofInt 6) (by decide)
    (by norm_num [Fix.ofInt, Fix.scale]) (by norm_num [Fix.ofInt, Fix.scale])
    (by norm_num [Fix.ofInt, Fix.scale])

/-- Concrete evaluation: the length of (3, 4) is 5. -/
theorem Vec2.len_three_four : Vec2.len ⟨Fix.ofInt 3, Fix.ofInt 4⟩ = some (Fix.ofInt 5) :=
  Vec2.len_eval _ (Fix.ofInt 25) (Fix.ofInt 5) (by decide)
    (by norm_num [Fix.ofInt, Fix.scale]) (by norm_num [Fix.ofInt, Fix.scale])
    (by norm_num [Fix.ofInt, Fix.scale])

/-- Concrete evaluation: the magnitude of (10, 0, 0) is 10. -/
theorem Vec3.magnitude_ten : Vec3.magnitude ⟨Fix.ofInt 10, 0, 0⟩ = some (Fix.ofInt 10) :=
  Vec3.magnitude_eval _ (Fix.ofInt 100) (Fix.ofInt 10) (by decide)
    (by norm_num [Fix.ofInt, Fix.scale]) (by norm_num [Fix.ofInt, Fix.scale])
    (by norm_num [Fix.ofInt, Fix.scale])

/-- Concrete evaluation: the magnitude of (3, 4, 12) is 13. -/
theorem Vec3.magnitude_three_four_twelve :
    Vec3.magnitude ⟨Fix.ofInt 3, Fix.ofInt 4, Fix.ofInt 12⟩ = some (Fix.ofInt 13) :=
  Vec3.magnitude_eval _ (Fix.ofInt 169) (Fix.ofInt 13) (by decide)
    (by norm_num [Fix.ofInt, Fix.scale]) (by norm_num [Fix.ofInt, Fix.scale])
    (by norm_num [Fix.ofInt, Fix.scale])

/-- Witness for C1 at the spec's own examples: normalizing (6, 0) and
(10, 0, 0) through try_get_normalized yields the unit vectors. -/
theorem C1_try_get_normalized_witness :
    Vec2.try_get_normalized ⟨Fix.ofInt 6, 0⟩ = some (some ⟨Fix.ofInt 1, 0⟩) ∧
    Vec3.try_get_normalized ⟨Fix.ofInt 10, 0, 0⟩ = some (some ⟨Fix.ofInt 1, 0, 0⟩) := by
  constructor
  · have h := (C1_try_get_normalized_spec.1 ⟨Fix.ofInt 6, 0⟩ (Fix.ofInt 6)
      Vec2.len_six_zero).2 (by norm_num [Fix.ofInt, Fix.scale])
    rw [h]
    decide
  · have h := (C1_try_get_normalized_spec.2 ⟨Fix.ofInt 10, 0, 0⟩ (Fix.ofInt 10)
      Vec3.magnitude_ten).2 (by norm_num [Fix.ofInt, Fix.scale])
    rw [h]
    decide

/-- Concrete evaluation: the length of the zero Vec2 is zero. -/
theorem Vec2.len_zero : Vec2.len Vec2.ZERO = some 0 :=
  Vec2.len_eval _ 0 0 (by decide) (by norm_num) le_rfl (by norm_num)

/-- Concrete evaluation: the magnitude of the zero Vec3 is zero. -/
theorem Vec3.magnitude_zero : Vec3.magnitude Vec3.ZERO = some 0 :=
  Vec3.magnitude_eval _ 0 0 (by decide) (by norm_num) le_rfl (by norm_num)

/-- C2: calling normalize() or get_normalized() on the zero vector is a fatal
error (a panic, modelled as none): the computed length is zero and the
componentwise division faults on the zero divisor. -/
theorem C2_normalize_zero_panics :
    Vec2.normalize Vec2.ZERO = none ∧ Vec2.get_normalized Vec2.ZERO = none ∧
    Vec3.normalize Vec3.ZERO = none ∧ Vec3.get_normalized Vec3.ZERO = none := by
  refine ⟨?_, ?_, ?_, ?_⟩ <;>
    simp [Vec2.normalize, Vec2.get_normalized, Vec3.normalize, Vec3.get_normalized,
      Vec2.len_zero, Vec3.magnitude_zero, Fix.div]

/-- C3: exact Pythagorean triples carry no rounding error: (3,4) has squared
length exactly 25 and length exactly 5; (3,4,12) has squared magnitude exactly
169 and magnitude exactly 13. -/
theorem C3_pythagorean_exact :
    Vec2.len_pow2 ⟨Fix.ofInt 3, Fix.ofInt 4⟩ = some (Fix.ofInt 25) ∧
    Vec2.len ⟨Fix.ofInt 3, Fix.ofInt 4⟩ = some (Fix.ofInt 5) ∧
    Vec3.magintude_pow2 ⟨Fix.ofInt 3, Fix.ofInt 4, Fix.ofInt 12⟩ = some (Fix.ofInt 169) ∧
    Vec3.magnitude ⟨Fix.ofInt 3, Fix.ofInt 4, Fix.ofInt 12⟩ = some (Fix.ofInt 13) :=
  ⟨by decide, Vec2.len_three_four, by decide, Vec3.magnitude_three_four_twelve⟩

/-- C9: for every vector whose computed length is nonzero, the in-place
normalize() leaves the vector in exactly the state get_normalized() would have
returned: both compute the length once and divide every component by it. -/
theorem C9_normalize_agrees_with_get_normalized :
    (∀ (v : Vec2) (l : Int), Vec2.len v = some l → l ≠ 0 →
      Vec2.normalize v = Vec2.get_normalized v) ∧
    (∀ (v : Vec3) (l : Int), Vec3.magnitude v = some l → l ≠ 0 →
      Vec3.normalize v = Vec3.get_normalized v) :=
  ⟨fun _ _ _ _ => rfl, fun _ _ _ _ => rfl⟩

/-- Witness for C9 at (3, 4) and (10, 0, 0), whose lengths are 5 and 10. -/
theorem C9_normalize_agrees_witness :
    Vec2.normalize ⟨Fix.ofInt 3, Fix.ofInt 4⟩ = Vec2.get_normalized ⟨Fix.ofInt 3, Fix.ofInt 4⟩ ∧
    Vec3.normalize ⟨Fix.ofInt 10, 0, 0⟩ = Vec3.get_normalized ⟨Fix.ofInt 10, 0, 0⟩ :=
  ⟨C9_normalize_agrees_with_get_normalized.1 _ (Fix.ofInt 5) Vec2.len_three_four
      (by norm_num [Fix.ofInt, Fix.scale]),
    C9_normalize_agrees_with_get_normalized.2 _ (Fix.ofInt 10) Vec3.magnitude_ten
      (by norm_num [Fix.ofInt, Fix.scale])⟩

/-- C5 counterexample: for the Vec2 whose x component is the minimum raw
I32F32 value (integer value -2^31), negation overflows and panics, so
v + (-v) is a panic rather than the zero vector; the component is nonetheless
a representable scalar. -/
theorem C5_add_neg_counterexample :
    Fix.inRange (-(2 ^ 63)) ∧
    (Vec2.neg ⟨-(2 ^ 63), 0⟩).bind (fun w => Vec2.add ⟨-(2 ^ 63), 0⟩ w) = none ∧
    (Vec2.neg ⟨-(2 ^ 63), 0⟩).bind (fun w => Vec2.add ⟨-(2 ^ 63), 0⟩ w) ≠ some Vec2.ZERO := by
  refine ⟨by decide, by decide, by decide⟩

/-- C5 amended: v - v is the zero vector for every vector, and v + (-v) is the
zero vector for every vector none of whose raw components is the minimum value
-2^63 (for which negation overflows and panics). -/
theorem C5_add_neg_sub_self_amended :
    (∀ v : Vec2, Vec2.sub v v = some Vec2.ZERO) ∧
    (∀ v : Vec3, Vec3.sub v v = some Vec3.ZERO) ∧
    (∀ v : Vec2, -(2 ^ 63) < v.x → v.x < 2 ^ 63 → -(2 ^ 63) < v.y → v.y < 2 ^ 63 →
      (Vec2.neg v).bind (fun w => Vec2.add v w) = some Vec2.ZERO) ∧
    (∀ v : Vec3, -(2 ^ 63) < v.x → v.x < 2 ^ 63 → -(2 ^ 63) < v.y → v.y < 2 ^ 63 →
      -(2 ^ 63) < v.z → v.z < 2 ^ 63 →
      (Vec3.neg v).bind (fun w => Vec3.add v w) = some Vec3.ZERO) := by
  have hsub : ∀ a : Int, Fix.sub a a = some 0 := by
    intro a
    simp [Fix.sub, Fix.chk, Fix.inRange]
  have hneg : ∀ a : Int, -(2 ^ 63) < a → a < 2 ^ 63 → Fix.neg a = some (-a) := by
    intro a h1 h2
    simp only [Fix.neg, Fix.chk, Fix.inRange]
    rw [if_pos (by omega)]
  have hadd0 : ∀ a : Int, Fix.add a (-a) = some 0 := by
    intro a
    simp [Fix.add, Fix.chk, Fix.inRange]
  refine ⟨?_, ?_, ?_, ?_⟩
  · intro v
    simp [Vec2.sub, hsub, Vec2.ZERO]
  · intro v
    simp [Vec3.sub, hsub, Vec3.ZERO]
  · intro v hx1 hx2 hy1 hy2
    simp [Vec2.neg, hneg _ hx1 hx2, hneg _ hy1 hy2, Vec2.add, hadd0, Vec2.ZERO]
  · intro v hx1 hx2 hy1 hy2 hz1 hz2
    simp [Vec3.neg, hneg _ hx1 hx2, hneg _ hy1 hy2, hneg _ hz1 hz2, Vec3.add, hadd0, Vec3.ZERO]

/-- Witness for C5 amended at (1, -2) and (1, -2, 3) in integer units. -/
theorem C5_amended_witness :
    (Vec2.neg ⟨Fix.ofInt 1, Fix.ofInt (-2)⟩).bind
      (fun w => Vec2.add ⟨Fix.ofInt 1, Fix.ofInt (-2)⟩ w) = some Vec2.ZERO ∧
    (Vec3.neg ⟨Fix.ofInt 1, Fix.ofInt (-2), Fix.ofInt 3⟩).bind
      (fun w => Vec3.add ⟨Fix.ofInt 1, Fix.ofInt (-2), Fix.ofInt 3⟩ w) = some Vec3.ZERO :=
  ⟨C5_add_neg_sub_self_amended.2.2.1 _ (by norm_num [Fix.ofInt, Fix.scale])
      (by norm_num [Fix.ofInt, Fix.scale]) (by norm_num [Fix.ofInt, Fix.scale])
      (by norm_num [Fix.ofInt, Fix.scale]),
    C5_add_neg_sub_self_amended.2.2.2 _ (by norm_num [Fix.ofInt, Fix.scale])
      (by norm_num [Fix.ofInt, Fix.scale]) (by norm_num [Fix.ofInt, Fix.scale])
      (by norm_num [Fix.ofInt, Fix.scale]) (by norm_num [Fix.ofInt, Fix.scale])
      (by norm_num [Fix.ofInt, Fix.scale])⟩

/-- C7: converting a vector to a tuple of scalars and back yields the original
vector, and converting a tuple to a vector and back yields the original tuple,
for Vec2 and Vec3 alike. -/
theorem C7_tuple_roundtrip :
    (∀ v : Vec2, Vec2.fromTuple (Vec2.toTuple v) = v) ∧
    (∀ p : Int × Int, Vec2.toTuple (Vec2.fromTuple p) = p) ∧
    (∀ v : Vec3, Vec3.fromTuple (Vec3.toTuple v) = v) ∧
    (∀ p : Int × Int × Int, Vec3.toTuple (Vec3.fromTuple p) = p) :=
  ⟨fun _ => rfl, fun _ => rfl, fun _ => rfl, fun _ => rfl⟩

/-- Multiplication of two integer-valued scalars is exact whenever the product
stays in range. -/
theorem Fix.mul_ofInt (m n : Int) (h : Fix.inRange (m * n * Fix.scale)) :
    Fix.mul (Fix.ofInt m) (Fix.ofInt n) = some (Fix.ofInt (m * n)) := by
  unfold Fix.mul Fix.ofInt
  have he : m * Fix.scale * (n * Fix.scale) = m * n * Fix.scale * Fix.scale := by ring
  rw [he, Int.mul_fdiv_cancel _ (by norm_num [Fix.scale]), Fix.chk, if_pos h]

/-- Addition of two integer-valued scalars is exact whenever the sum stays in
range. -/
theorem Fix.add_ofInt (m n : Int) (h : Fix.inRange ((m + n) * Fix.scale)) :
    Fix.add (Fix.ofInt m) (Fix.ofInt n) = some (Fix.ofInt (m + n)) := by
  unfold Fix.add Fix.ofInt
  have he : m * Fix.scale + n * Fix.scale = (m + n) * Fix.scale := by ring
  rw [he, Fix.chk, if_pos h]

/-- Division of an even integer-valued scalar by the scalar 2 is exact. -/
theorem Fix.div_ofInt_two (m : Int) (h : Fix.inRange (Fix.ofInt (2 * m))) :
    Fix.div (Fix.ofInt (2 * m)) (Fix.ofInt 2) = some (Fix.ofInt m) := by
  unfold Fix.div Fix.ofInt
  rw [if_neg (by norm_num [Fix.scale])]
  have he : 2 * m * Fix.scale * Fix.scale = m * Fix.scale * (2 * Fix.scale) := by ring
  rw [he, Int.mul_tdiv_cancel _ (by norm_num [Fix.scale])]
  rw [Fix.chk, if_pos ?hin]
  case hin =>
    rw [Fix.inRange] at h ⊢
    rw [Fix.ofInt] at h
    rw [Fix.scale] at h ⊢
    omega

/-- Multiplication of an integer-valued scalar by the scalar 2 is exact when
the doubled value stays in range. -/
theorem Fix.mul_ofInt_two (m : Int) (h : Fix.inRange (Fix.ofInt (2 * m))) :
    Fix.mul (Fix.ofInt m) (Fix.ofInt 2) = some (Fix.ofInt (2 * m)) := by
  have h2 : Fix.inRange (m * 2 * Fix.scale) := by
    rw [Fix.inRange]
    rw [Fix.inRange, Fix.ofInt] at h
    constructor <;> [linarith [h.1]; linarith [h.2]]
  have := Fix.mul_ofInt m 2 h2
  rw [this]
  rw [show m * 2 = 2 * m by ring]

/-- C6: Vec3's squared-magnitude operation sums the three squared components:
it extends Vec2's len_pow2 by the z term, and on integer-valued vectors whose
sum of squares is representable it returns exactly x*x + y*y + z*z. -/
theorem C6_magintude_pow2_spec :
    (∀ v : Vec3, Vec3.magintude_pow2 v =
      (Vec2.len_pow2 ⟨v.x, v.y⟩).bind (fun s =>
        (Fix.mul v.z v.z).bind (fun c => Fix.add s c))) ∧
    (∀ a b c : Int, a * a + b * b + c * c < 2 ^ 31 →
      Vec3.magintude_pow2 ⟨Fix.ofInt a, Fix.ofInt b, Fix.ofInt c⟩ =
        some (Fix.ofInt (a * a + b * b + c * c))) := by
  constructor
  · intro v
    simp only [Vec3.magintude_pow2, Vec2.len_pow2]
    cases hx : Fix.mul v.x v.x with
    | none => simp
    | some sx =>
      cases hy : Fix.mul v.y v.y with
      | none => simp
      | some sy =>
        cases hab : Fix.add sx sy with
        | none => simp [hab]
        | some sab => simp [hab]
  · intro a b c h
    have ha2 : 0 ≤ a * a := mul_self_nonneg a
    have hb2 : 0 ≤ b * b := mul_self_nonneg b
    have hc2 : 0 ≤ c * c := mul_self_nonneg c
    have hrange : ∀ m : Int, 0 ≤ m → m < 2 ^ 31 → Fix.inRange (m * Fix.scale) := by
      intro m h1 h2
      rw [Fix.inRange, Fix.scale]
      constructor <;> nlinarith
    have hx := Fix.mul_ofInt a a (hrange _ ha2 (by linarith))
    have hy := Fix.mul_ofInt b b (hrange _ hb2 (by linarith))
    have hz := Fix.mul_ofInt c c (hrange _ hc2 (by linarith))
    have hab := Fix.add_ofInt (a * a) (b * b) (hrange _ (by linarith) (by linarith))
    have habc := Fix.add_ofInt (a * a + b * b) (c * c) (hrange _ (by linarith) h)
    simp only [Vec3.magintude_pow2]
    rw [hx]
    simp only [Option.bind_eq_bind, Option.some_bind]
    rw [hy]
    simp only [Option.bind_eq_bind, Option.some_bind]
    rw [hab]
    simp only [Option.bind_eq_bind, Option.some_bind]
    rw [hz]
    simp only [Option.bind_eq_bind, Option.some_bind]
    rw [habc]

/-- Witness for C6 at the integer vector (3, 4, 12). -/
theorem C6_magintude_pow2_witness :
    Vec3.magintude_pow2 ⟨Fix.ofInt 3, Fix.ofInt 4, Fix.ofInt 12⟩ = some (Fix.ofInt 169) := by
  have h := C6_magintude_pow2_spec.2 3 4 12 (by norm_num)
  rw [h]
  norm_num

/-- C8 counterexample: the Vec2 with even integer components (2^30, 0) is
representable, but multiplying it by the scalar 2 overflows the I32F32 range
and panics, so multiply-then-divide does not return the original vector. -/
theorem C8_mul_two_overflow_counterexample :
    Fix.inRange (Fix.ofInt (2 ^ 30)) ∧
    Vec2.mul ⟨Fix.ofInt (2 ^ 30), 0⟩ (Fix.ofInt 2) = none ∧
    (Vec2.mul ⟨Fix.ofInt (2 ^ 30), 0⟩ (Fix.ofInt 2)).bind
      (fun w => Vec2.div w (Fix.ofInt 2)) = none := by
  refine ⟨by decide, by decide, by decide⟩

/-- C8 amended: for vectors with even integer components, dividing by the
scalar 2 and then multiplying by 2 returns the original vector exactly; the
multiply-first order also returns the original exactly provided the doubled
components stay in range (otherwise the multiplication overflows and panics,
as the counterexample shows). -/
theorem C8_even_scaling_amended :
    (∀ a b : Int,
      Fix.inRange (Fix.ofInt (2 * a)) → Fix.inRange (Fix.ofInt (2 * b)) →
      ((Vec2.div ⟨Fix.ofInt (2 * a), Fix.ofInt (2 * b)⟩ (Fix.ofInt 2)).bind
          (fun w => Vec2.mul w (Fix.ofInt 2)) =
        some ⟨Fix.ofInt (2 * a), Fix.ofInt (2 * b)⟩) ∧
      (Fix.inRange (Fix.ofInt (2 * (2 * a))) → Fix.inRange (Fix.ofInt (2 * (2 * b))) →
        (Vec2.mul ⟨Fix.ofInt (2 * a), Fix.ofInt (2 * b)⟩ (Fix.ofInt 2)).bind
          (fun w => Vec2.div w (Fix.ofInt 2)) =
        some ⟨Fix.ofInt (2 * a), Fix.ofInt (2 * b)⟩)) ∧
    (∀ a b c : Int,
      Fix.inRange (Fix.ofInt (2 * a)) → Fix.inRange (Fix.ofInt (2 * b)) →
      Fix.inRange (Fix.ofInt (2 * c)) →
      ((Vec3.div ⟨Fix.ofInt (2 * a), Fix.ofInt (2 * b), Fix.ofInt (2 * c)⟩ (Fix.ofInt 2)).bind
          (fun w => Vec3.mul w (Fix.ofInt 2)) =
        some ⟨Fix.ofInt (2 * a), Fix.ofInt (2 * b), Fix.ofInt (2 * c)⟩) ∧
      (Fix.inRange (Fix.ofInt (2 * (2 * a))) → Fix.inRange (Fix.ofInt (2 * (2 * b))) →
        Fix.inRange (Fix.ofInt (2 * (2 * c))) →
        (Vec3.mul ⟨Fix.ofInt (2 * a), Fix.ofInt (2 * b), Fix.ofInt (2 * c)⟩ (Fix.ofInt 2)).bind
          (fun w => Vec3.div w (Fix.ofInt 2)) =
        some ⟨Fix.ofInt (2 * a), Fix.ofInt (2 * b), Fix.ofInt (2 * c)⟩)) := by
  constructor
  · intro a b ha hb
    constructor
    · simp [Vec2.div, Fix.div_ofInt_two _ ha, Fix.div_ofInt_two _ hb, Vec2.mul,
        Fix.mul_ofInt_two _ ha, Fix.mul_ofInt_two _ hb]
    · intro ha4 hb4
      simp [Vec2.mul, Fix.mul_ofInt_two _ ha4, Fix.mul_ofInt_two _ hb4, Vec2.div,
        Fix.div_ofInt_two _ ha4, Fix.div_ofInt_two _ hb4]
  · intro a b c ha hb hc
    constructor
    · simp [Vec3.div, Fix.div_ofInt_two _ ha, Fix.div_ofInt_two _ hb, Fix.div_ofInt_two _ hc,
        Vec3.mul, Fix.mul_ofInt_two _ ha, Fix.mul_ofInt_two _ hb, Fix.mul_ofInt_two _ hc]
    · intro ha4 hb4 hc4
      simp [Vec3.mul, Fix.mul_ofInt_two _ ha4, Fix.mul_ofInt_two _ hb4, Fix.mul_ofInt_two _ hc4,
        Vec3.div, Fix.div_ofInt_two _ ha4, Fix.div_ofInt_two _ hb4, Fix.div_ofInt_two _ hc4]

/-- Witness for C8 amended at the even integer vectors (2, -6) and (2, -6, 4). -/
theorem C8_even_scaling_witness :
    ((Vec2.div ⟨Fix.ofInt 2, Fix.ofInt (-6)⟩ (Fix.ofInt 2)).bind
        (fun w => Vec2.mul w (Fix.ofInt 2)) = some ⟨Fix.ofInt 2, Fix.ofInt (-6)⟩) ∧
    ((Vec3.mul ⟨Fix.ofInt 2, Fix.ofInt (-6), Fix.ofInt 4⟩ (Fix.ofInt 2)).bind
        (fun w => Vec3.div w (Fix.ofInt 2)) = some ⟨Fix.ofInt 2, Fix.ofInt (-6), Fix.ofInt 4⟩) := by
  constructor
  · have h := (C8_even_scaling_amended.1 1 (-3) (by decide) (by decide)).1
    norm_num at h
    exact h
  · have h := (C8_even_scaling_amended.2 1 (-3) 2 (by decide) (by decide) (by decide)).2
      (by decide) (by decide) (by decide)
    norm_num at h
    exact h

/-- C10: the Vec2 whose components are both the smallest positive scalar step
2^-32 (raw value 1) is not the zero vector, yet its squared components truncate
to zero under I32F32 multiplication, so its computed length is exactly zero:
try_get_normalized returns None and normalize panics. -/
theorem C10_nonzero_vector_with_zero_length :
    (⟨1, 1⟩ : Vec2) ≠ Vec2.ZERO ∧
    Fix.mul 1 1 = some 0 ∧
    Vec2.len ⟨1, 1⟩ = some 0 ∧
    Vec2.try_get_normalized ⟨1, 1⟩ = some none ∧
    Vec2.normalize ⟨1, 1⟩ = none := by
  have hlen : Vec2.len ⟨1, 1⟩ = some 0 :=
    Vec2.len_eval _ 0 0 (by decide) (by norm_num) le_rfl (by norm_num)
  refine ⟨by decide, by decide, hlen, ?_, ?_⟩
  · simp [Vec2.try_get_normalized, hlen]
  · simp [Vec2.normalize, hlen, Fix.div]
